import Mathlib

/-!
Verification development for the dataset reorganizer `src/dataset_utils.py`.

The script walks a root directory; each immediate subdirectory is a task
folder.  Inside a task folder, images found in `image_inputs/` are sorted by
their numeric filename prefix and copied or moved into `trajectory/` under
the normalized names `step_{i}_screenshot.<ext>`.

The embedding below models:
  * filenames and the sort key (`extract_sort_key`, `sortFiles`),
  * `Path.suffix` semantics of `pathlib` (`pySuffix`),
  * the filesystem as a finite structure (`FS`) of directories and files,
  * the per-task procedure (`processTask`) and the entry point (`runMain`),
    with printed lines modelled as structured `LogLine` values and
    per-file transfer failures modelled by an oracle `Nat → Option String`
    giving the cause of the exception raised by the copy/move primitive,
    if any.
-/

/-- A filesystem path, as a list of components. -/
abbrev FsPath := List String

/-- The recognized image extensions (`IMG_EXTS` in the source). -/
def IMG_EXTS : List String := [".jpg", ".jpeg", ".png", ".bmp", ".webp", ".tiff"]

/-- Numeric value of a list of decimal digit characters, most significant
first, as computed by Python `int` on the matched digit run. -/
def digitsVal (cs : List Char) : Nat :=
  cs.foldl (fun a c => 10 * a + (c.toNat - 48)) 0

/-- The maximal leading run of decimal digits of a filename
(the match of the regex `^(\d+)`). -/
def leadingDigits (name : String) : List Char :=
  name.data.takeWhile Char.isDigit

/-- Whether the filename starts with a decimal digit, i.e. whether the
regex `^(\d+)` matches. -/
def hasLeadingDigit (name : String) : Bool :=
  !(leadingDigits name).isEmpty

/-- Integer value of the leading digit run of a filename. -/
def numericPrefixVal (name : String) : Nat :=
  digitsVal (leadingDigits name)

/-- Sort key of a filename: `(numeric prefix, name)` when the name starts
with digits, `(10^9, name)` otherwise (`extract_sort_key` in the source). -/
def extract_sort_key (name : String) : Nat × String :=
  if hasLeadingDigit name then (numericPrefixVal name, name)
  else (10 ^ 9, name)

/-- Comparison of sort keys, as Python compares the tuples
`extract_sort_key` returns: lexicographically, ints first, then names. -/
def keyLe (a b : String) : Prop :=
  (extract_sort_key a).1 < (extract_sort_key b).1 ∨
    ((extract_sort_key a).1 = (extract_sort_key b).1 ∧ a ≤ b)

instance : DecidableRel keyLe := fun a b => by
  unfold keyLe
  exact inferInstance

instance : IsTotal String keyLe := by
  constructor
  intro a b
  rcases Nat.lt_trichotomy (extract_sort_key a).1 (extract_sort_key b).1 with h | h | h
  · exact Or.inl (Or.inl h)
  · rcases le_total a b with hab | hab
    · exact Or.inl (Or.inr ⟨h, hab⟩)
    · exact Or.inr (Or.inr ⟨h.symm, hab⟩)
  · exact Or.inr (Or.inl h)

instance : IsTrans String keyLe := by
  constructor
  intro a b c hab hbc
  rcases hab with h1 | ⟨h1, h1'⟩
  · rcases hbc with h2 | ⟨h2, _⟩
    · exact Or.inl (h1.trans h2)
    · exact Or.inl (h2 ▸ h1)
  · rcases hbc with h2 | ⟨h2, h2'⟩
    · exact Or.inl (h1 ▸ h2)
    · exact Or.inr ⟨h1.trans h2, h1'.trans h2'⟩

/-- Sorting filenames by `extract_sort_key`, as `files.sort(key=...)` does. -/
def sortFiles (names : List String) : List String :=
  List.insertionSort keyLe names

/-- Lexicographic sorting of plain strings, as `sorted(task_dirs)` sorts
the task paths (which share the root prefix, so their order is the order
of their names). -/
def sortStrings (names : List String) : List String :=
  List.insertionSort (· ≤ ·) names

/-- Extension of a filename with the leading dot, following
`pathlib.PurePath.suffix`: the part of the name from the last dot, when
that dot is neither the first nor the last character; empty otherwise. -/
def pySuffix (name : String) : String :=
  let cs := name.data
  match cs.reverse.findIdx? (fun c => c == '.') with
  | none => ""
  | some r =>
      let i := cs.length - 1 - r
      if 0 < i ∧ i < cs.length - 1 then String.mk (cs.drop i) else ("")

/-- ASCII lower-casing of a string, as `str.lower()` acts on extensions. -/
def strLower (s : String) : String :=
  String.mk (s.data.map Char.toLower)

/-- Whether a directory entry name is collected by `gather_image_files`:
its extension, lower-cased, is a recognized image extension. -/
def isImageName (name : String) : Bool :=
  IMG_EXTS.contains (strLower (pySuffix name))

example : sortFiles ["2.png", "10.png", "1.jpg", "banner.png"] =
    ["1.jpg", "2.png", "10.png", "banner.png"] := by decide

example : pySuffix ("10.PNG") = ".PNG" := by decide
example : strLower (".PNG") = ".png" := by decide
example : pySuffix (".png") = "" := by decide
example : isImageName ("a.webp") = true := by decide
example : isImageName ("a.txt") = false := by decide

/-- Decimal digits of `n`, most significant first, computed with explicit
fuel so that the definition is structural. -/
def natReprAux : Nat → Nat → List Char
  | 0, _ => []
  | fuel + 1, n =>
      if n < 10 then [Nat.digitChar n]
      else natReprAux fuel (n / 10) ++ [Nat.digitChar (n % 10)]

/-- Decimal rendering of a natural number, as Python `str` renders the
step index in the f-string. -/
def natRepr (n : Nat) : String :=
  String.mk (natReprAux (n + 1) n)

/-- Destination filename for the `i`-th image of a task:
`step_{i}_screenshot{ext}` with the source's extension lower-cased. -/
def destName (i : Nat) (srcName : String) : String :=
  "step_" ++ natRepr i ++ "_screenshot" ++ strLower (pySuffix srcName)

/-- Destination names produced for a sorted list of source images, in
order: the name sequence of the transfer loop of `process_task`. -/
def transferPlan (images : List String) : List String :=
  (images.enum).map (fun p => destName p.1 p.2)

example : natRepr 0 = "0" := by decide
example : natRepr 10 = "10" := by decide
example : destName 3 ["2.PNG"].head! = "step_3_screenshot.png" := by decide

/-- The filesystem: the set of existing directories and the existing
regular files with their contents. -/
structure FS where
  dirs : List FsPath
  files : List (FsPath × String)
deriving DecidableEq

/-- Whether a path is an existing directory. -/
def FS.isDir (fs : FS) (p : FsPath) : Bool :=
  fs.dirs.contains p

/-- Content of the regular file at a path, if there is one. -/
def FS.lookupFile (fs : FS) (p : FsPath) : Option String :=
  fs.files.lookup p

/-- Whether a path is an existing regular file. -/
def FS.isFile (fs : FS) (p : FsPath) : Bool :=
  (fs.lookupFile p).isSome

/-- Whether a path exists, as a directory or as a regular file. -/
def FS.pathExists (fs : FS) (p : FsPath) : Bool :=
  fs.isDir p || fs.isFile p

/-- Write a file: create it or overwrite its content silently. -/
def FS.setFile (fs : FS) (p : FsPath) (content : String) : FS :=
  { fs with files := (p, content) :: fs.files.filter (fun e => !(e.1 == p)) }

/-- Remove a regular file. -/
def FS.removeFile (fs : FS) (p : FsPath) : FS :=
  { fs with files := fs.files.filter (fun e => !(e.1 == p)) }

/-- Create a directory unless it already exists
(`mkdir(exist_ok=True)`). -/
def FS.mkdirIfAbsent (fs : FS) (p : FsPath) : FS :=
  if fs.isDir p then fs else { fs with dirs := p :: fs.dirs }

/-- Remove a directory entry (`rmdir`; the script only calls it on an
empty directory). -/
def FS.rmdir (fs : FS) (p : FsPath) : FS :=
  { fs with dirs := fs.dirs.filter (fun q => !(q == p)) }

/-- The name under which `c` is a direct child of directory `p`, if it
is one. -/
def childOf (p c : FsPath) : Option String :=
  if c.dropLast = p then c.getLast? else none

/-- Names of the immediate subdirectories of `p`
(`p.iterdir()` filtered by `is_dir()`). -/
def FS.dirChildNames (fs : FS) (p : FsPath) : List String :=
  fs.dirs.filterMap (childOf p)

/-- Names of the regular files directly inside `p`
(`p.iterdir()` filtered by `is_file()`). -/
def FS.fileChildNames (fs : FS) (p : FsPath) : List String :=
  (fs.files.map Prod.fst).filterMap (childOf p)

/-- Names of all entries directly inside `p` (`any(p.iterdir())` tests
this list for emptiness). -/
def FS.childNames (fs : FS) (p : FsPath) : List String :=
  fs.dirChildNames p ++ fs.fileChildNames p

/-- The `gather_image_files` operation: regular files of the folder with
a recognized image extension, sorted by `extract_sort_key`. -/
def gatherImageFiles (fs : FS) (folder : FsPath) : List String :=
  sortFiles ((fs.fileChildNames folder).filter isImageName)

/-- Final component of a path (`Path.name`). -/
def pathName (p : FsPath) : String :=
  p.getLastD ("")

/-- Whether a directory entry is hidden (`name.startswith('.')`). -/
def startsWithDot (n : String) : Bool :=
  match n.data with
  | [] => false
  | c :: _ => c == '.'

/-- One line printed by the script, in structured form: one constructor
per `print` site, carrying the interpolated values. -/
inductive LogLine where
  | skipNoImageInputs (task : String)
  | skipEmpty (task : String)
  | processingHeader (task : String) (count : Nat)
  | dryRunAction (move : Bool) (srcName : String) (destFileName : String)
  | errorTransfer (move : Bool) (src dest : FsPath) (cause : String)
  | removedEmptyFolder (p : FsPath)
  | rootNotFound (root : FsPath)
  | foundTasks (count : Nat) (root : FsPath)
  | processingTask (name : String)
  | noTaskFolders (root : FsPath)
  | done
deriving DecidableEq

/-- Body of the transfer loop of `process_task` for one image: in dry-run
it only reports; otherwise it moves or copies, catching a failure of the
primitive (modelled by the oracle value `fail?`) and reporting it. -/
def transferStep (fs : FS) (inp out : FsPath) (move dry : Bool) (i : Nat)
    (n : String) (fail? : Option String) : FS × List LogLine :=
  let dest := out ++ [destName i n]
  if dry then (fs, [.dryRunAction move n (destName i n)])
  else
    match fail? with
    | some cause => (fs, [.errorTransfer move (inp ++ [n]) dest cause])
    | none =>
        match fs.lookupFile (inp ++ [n]) with
        | some c =>
            if move then ((fs.removeFile (inp ++ [n])).setFile dest c, [])
            else (fs.setFile dest c, [])
        | none => (fs, [.errorTransfer move (inp ++ [n]) dest ("not found")])

/-- The transfer loop of `process_task`, over the images numbered from
`i` upward. -/
def runSteps (fs : FS) (inp out : FsPath) (move dry : Bool)
    (fails : Nat → Option String) (i : Nat) : List String → FS × List LogLine
  | [] => (fs, [])
  | n :: ns =>
      let r1 := transferStep fs inp out move dry i n (fails i)
      let r2 := runSteps r1.1 inp out move dry fails (i + 1) ns
      (r2.1, r1.2 ++ r2.2)

/-- The `process_task` procedure of the source, on one task folder. -/
def processTask (fs : FS) (task : FsPath) (move dry : Bool)
    (fails : Nat → Option String) : FS × List LogLine :=
  let inp := task ++ ["image_inputs"]
  if !(fs.pathExists inp) || !(fs.isDir inp) then
    (fs, [.skipNoImageInputs (pathName task)])
  else
    let out := task ++ ["trajectory"]
    let fs1 := if dry then fs else fs.mkdirIfAbsent out
    let images := gatherImageFiles fs1 inp
    if images.isEmpty then (fs1, [.skipEmpty (pathName task)])
    else
      let r := runSteps fs1 inp out move dry fails 0 images
      let logs := LogLine.processingHeader (pathName task) images.length :: r.2
      if !dry && move then
        if (r.1.childNames inp).isEmpty then
          (r.1.rmdir inp, logs ++ [.removedEmptyFolder inp])
        else (r.1, logs)
      else (r.1, logs)

/-- The loop of `main` over the sorted task folders, skipping hidden
names; the failure oracle is indexed per task name. -/
def runTasks (fs : FS) (root : FsPath) (move dry : Bool)
    (fails : String → Nat → Option String) : List String → FS × List LogLine
  | [] => (fs, [])
  | n :: ns =>
      if startsWithDot n then runTasks fs root move dry fails ns
      else
        let r1 := processTask fs (root ++ [n]) move dry (fails n)
        let r2 := runTasks r1.1 root move dry fails ns
        (r2.1, LogLine.processingTask n :: r1.2 ++ r2.2)

/-- The `main` entry point: root validation, task enumeration, and the
processing loop. -/
def runMain (fs : FS) (root : FsPath) (move dry : Bool)
    (fails : String → Nat → Option String) : FS × List LogLine :=
  if !(fs.pathExists root) || !(fs.isDir root) then
    (fs, [.rootNotFound root])
  else
    let taskDirs := fs.dirChildNames root
    if taskDirs.isEmpty then (fs, [.noTaskFolders root])
    else
      let r := runTasks fs root move dry fails (sortStrings taskDirs)
      (r.1, LogLine.foundTasks taskDirs.length root :: r.2 ++ [.done])

/-! ### Decimal rendering: round trip and injectivity -/

theorem digitChar_toNat {d : Nat} (h : d < 10) : (Nat.digitChar d).toNat = 48 + d := by
  interval_cases d <;> decide

theorem digitChar_isDigit {d : Nat} (h : d < 10) : (Nat.digitChar d).isDigit = true := by
  interval_cases d <;> decide

theorem digitsVal_append_single (cs : List Char) (c : Char) :
    digitsVal (cs ++ [c]) = 10 * digitsVal cs + (c.toNat - 48) := by
  simp [digitsVal, List.foldl_append]

theorem digitsVal_natReprAux (fuel : Nat) :
    ∀ n, n < fuel → digitsVal (natReprAux fuel n) = n := by
  induction fuel with
  | zero => intro n h; omega
  | succ fuel ih =>
      intro n h
      unfold natReprAux
      by_cases hn : n < 10
      · simp only [hn, if_pos]
        simp [digitsVal, digitChar_toNat hn]
      · simp only [hn, if_neg, if_false]
        have h1 : n / 10 < fuel := by omega
        rw [digitsVal_append_single, ih _ h1,
          digitChar_toNat (Nat.mod_lt _ (by norm_num))]
        omega

theorem natRepr_inj {m n : Nat} (h : natRepr m = natRepr n) : m = n := by
  have h' : natReprAux (m + 1) m = natReprAux (n + 1) n := congrArg String.data h
  have h2 := congrArg digitsVal h'
  rwa [digitsVal_natReprAux _ _ (Nat.lt_succ_self m),
    digitsVal_natReprAux _ _ (Nat.lt_succ_self n)] at h2

theorem natReprAux_digits (fuel : Nat) :
    ∀ n, n < fuel → ∀ c ∈ natReprAux fuel n, c.isDigit = true := by
  induction fuel with
  | zero => intro n h; omega
  | succ fuel ih =>
      intro n h c hc
      unfold natReprAux at hc
      by_cases hn : n < 10
      · simp only [hn, if_pos, List.mem_singleton] at hc
        exact hc ▸ digitChar_isDigit hn
      · simp only [hn, if_neg, if_false, List.mem_append, List.mem_singleton] at hc
        rcases hc with hc | hc
        · exact ih _ (by omega) _ hc
        · exact hc ▸ digitChar_isDigit (Nat.mod_lt _ (by norm_num))

theorem natRepr_digits (n : Nat) : ∀ c ∈ (natRepr n).data, c.isDigit = true :=
  natReprAux_digits (n + 1) n (Nat.lt_succ_self n)

/-- Cancellation of a digit run followed by a non-digit: two decompositions
of a character list into an all-digit block and a tail starting with a
non-digit agree on the block. -/
theorem digit_run_cancel :
    ∀ (d1 d2 r1 r2 : List Char), (∀ c ∈ d1, c.isDigit = true) →
      (∀ c ∈ d2, c.isDigit = true) →
      (∀ c, r1.head? = some c → c.isDigit = false) →
      (∀ c, r2.head? = some c → c.isDigit = false) →
      d1 ++ r1 = d2 ++ r2 → d1 = d2 := by
  intro d1
  induction d1 with
  | nil =>
      intro d2 r1 r2 _ hd2 hr1 _ heq
      cases d2 with
      | nil => rfl
      | cons c d2' =>
          exfalso
          have hc : r1.head? = some c := by
            rw [List.nil_append] at heq
            rw [heq]; rfl
          have := hr1 c hc
          have := hd2 c (List.mem_cons_self _ _)
          simp_all
  | cons c d1' ih =>
      intro d2 r1 r2 hd1 hd2 hr1 hr2 heq
      cases d2 with
      | nil =>
          exfalso
          have hc : r2.head? = some c := by
            rw [List.nil_append] at heq
            rw [← heq]; rfl
          have := hr2 c hc
          have := hd1 c (List.mem_cons_self _ _)
          simp_all
      | cons c' d2' =>
          simp only [List.cons_append, List.cons.injEq] at heq
          obtain ⟨hcc, htl⟩ := heq
          have := ih d2' r1 r2 (fun x hx => hd1 x (List.mem_cons_of_mem _ hx))
            (fun x hx => hd2 x (List.mem_cons_of_mem _ hx)) hr1 hr2 htl
          rw [hcc, this]

theorem destName_data (i : Nat) (n : String) :
    (destName i n).data =
      "step_".data ++ ((natRepr i).data ++
        ("_screenshot".data ++ (strLower (pySuffix n)).data)) := by
  simp [destName, String.data_append]

/-- The step index is recoverable from the destination filename: distinct
indices give distinct destination names, whatever the extensions are. -/
theorem destName_inj_index {i j : Nat} {n m : String}
    (h : destName i n = destName j m) : i = j := by
  have hd := congrArg String.data h
  rw [destName_data, destName_data] at hd
  have hd2 := List.append_cancel_left hd
  have hrun : (natRepr i).data = (natRepr j).data := by
    refine digit_run_cancel _ _ _ _ (natRepr_digits i) (natRepr_digits j) ?_ ?_ hd2
    · intro c hc
      simp only [List.head?] at hc
      cases hc
      decide
    · intro c hc
      simp only [List.head?] at hc
      cases hc
      decide
  exact natRepr_inj (congrArg String.mk hrun)

/-! ### Filesystem lemmas -/

theorem lookup_filter_ne {p q : FsPath} (h : p ≠ q) :
    ∀ (l : List (FsPath × String)),
      (l.filter (fun e => !(e.1 == q))).lookup p = l.lookup p := by
  intro l
  induction l with
  | nil => rfl
  | cons e l ih =>
      by_cases he : e.1 = q
      · have hb : (e.1 == q) = true := beq_iff_eq.mpr he
        have hp : (p == e.1) = false := by
          rw [he]
          exact beq_eq_false_iff_ne.mpr h
        simp [List.filter, List.lookup, hb, hp, ih]
      · have hb : (e.1 == q) = false := beq_eq_false_iff_ne.mpr he
        by_cases hpe : p = e.1
        · simp [List.filter, List.lookup, hb, beq_iff_eq.mpr hpe]
        · simp [List.filter, List.lookup, hb, beq_eq_false_iff_ne.mpr hpe, ih]

theorem lookup_filter_self (q : FsPath) :
    ∀ (l : List (FsPath × String)),
      (l.filter (fun e => !(e.1 == q))).lookup q = none := by
  intro l
  induction l with
  | nil => rfl
  | cons e l ih =>
      by_cases he : e.1 = q
      · simpa [List.filter, beq_iff_eq.mpr he] using ih
      · have hb : (e.1 == q) = false := beq_eq_false_iff_ne.mpr he
        have hq : (q == e.1) = false := beq_eq_false_iff_ne.mpr (fun h => he h.symm)
        simp [List.filter, List.lookup, hb, hq, ih]

theorem FS.lookupFile_setFile (fs : FS) (q : FsPath) (c : String) (p : FsPath) :
    (fs.setFile q c).lookupFile p = if p = q then some c else fs.lookupFile p := by
  by_cases h : p = q
  · simp [FS.setFile, FS.lookupFile, List.lookup, h]
  · simp only [FS.setFile, FS.lookupFile, List.lookup, if_neg h,
      beq_eq_false_iff_ne.mpr h]
    exact lookup_filter_ne h fs.files

theorem FS.lookupFile_removeFile (fs : FS) (q : FsPath) (p : FsPath) :
    (fs.removeFile q).lookupFile p = if p = q then none else fs.lookupFile p := by
  by_cases h : p = q
  · simp only [FS.removeFile, FS.lookupFile, if_pos h, h]
    exact lookup_filter_self q fs.files
  · simp only [FS.removeFile, FS.lookupFile, if_neg h]
    exact lookup_filter_ne h fs.files

theorem FS.lookupFile_mkdirIfAbsent (fs : FS) (q p : FsPath) :
    (fs.mkdirIfAbsent q).lookupFile p = fs.lookupFile p := by
  unfold FS.mkdirIfAbsent
  split <;> rfl

theorem FS.files_mkdirIfAbsent (fs : FS) (q : FsPath) :
    (fs.mkdirIfAbsent q).files = fs.files := by
  unfold FS.mkdirIfAbsent
  split <;> rfl

theorem FS.lookupFile_rmdir (fs : FS) (q p : FsPath) :
    (fs.rmdir q).lookupFile p = fs.lookupFile p := rfl

theorem FS.dirs_setFile (fs : FS) (q : FsPath) (c : String) :
    (fs.setFile q c).dirs = fs.dirs := rfl

theorem FS.dirs_removeFile (fs : FS) (q : FsPath) :
    (fs.removeFile q).dirs = fs.dirs := rfl

theorem childOf_eq_some {p c : FsPath} {n : String} :
    childOf p c = some n ↔ c = p ++ [n] := by
  constructor
  · intro h
    unfold childOf at h
    by_cases hd : c.dropLast = p
    · rw [if_pos hd] at h
      have hne : c ≠ [] := by
        intro hc
        rw [hc] at h
        exact Option.noConfusion h
      rw [List.getLast?_eq_getLast _ hne] at h
      have hn := Option.some_injective _ h
      rw [← hd, ← hn]
      exact (List.dropLast_append_getLast hne).symm
    · rw [if_neg hd] at h
      exact Option.noConfusion h
  · intro h
    subst h
    unfold childOf
    rw [List.dropLast_concat, if_pos rfl, List.getLast?_concat]

theorem mem_fileChildNames {fs : FS} {p : FsPath} {n : String} :
    n ∈ fs.fileChildNames p ↔ (p ++ [n]) ∈ fs.files.map Prod.fst := by
  unfold FS.fileChildNames
  rw [List.mem_filterMap]
  constructor
  · rintro ⟨c, hc, hco⟩
    rwa [childOf_eq_some.mp hco] at hc
  · intro h
    exact ⟨p ++ [n], h, childOf_eq_some.mpr rfl⟩

theorem lookup_isSome_of_mem_keys {c : FsPath} :
    ∀ {l : List (FsPath × String)}, c ∈ l.map Prod.fst → ∃ v, l.lookup c = some v := by
  intro l
  induction l with
  | nil => intro h; exact absurd h (List.not_mem_nil c)
  | cons e l ih =>
      intro h
      rw [List.map_cons, List.mem_cons] at h
      by_cases hc : c = e.1
      · exact ⟨e.2, by simp [List.lookup, beq_iff_eq.mpr hc]⟩
      · rcases h with h | h
        · exact absurd h hc
        · rcases ih h with ⟨v, hv⟩
          exact ⟨v, by simp [List.lookup, beq_eq_false_iff_ne.mpr hc, hv]⟩

theorem fileChildNames_nodup {fs : FS} (p : FsPath)
    (hwf : (fs.files.map Prod.fst).Nodup) : (fs.fileChildNames p).Nodup := by
  unfold FS.fileChildNames
  refine List.Nodup.filterMap ?_ hwf
  intro a a' b hb hb'
  rw [childOf_eq_some.mp hb, childOf_eq_some.mp hb']

theorem gatherImageFiles_nodup {fs : FS} (p : FsPath)
    (hwf : (fs.files.map Prod.fst).Nodup) : (gatherImageFiles fs p).Nodup := by
  unfold gatherImageFiles sortFiles
  exact (List.perm_insertionSort keyLe _).symm.nodup
    (List.Nodup.filter _ (fileChildNames_nodup p hwf))

theorem gatherImageFiles_present {fs : FS} {p : FsPath} {n : String}
    (h : n ∈ gatherImageFiles fs p) : ∃ c, fs.lookupFile (p ++ [n]) = some c := by
  unfold gatherImageFiles sortFiles at h
  have h1 := (List.perm_insertionSort keyLe _).subset h
  have h2 := List.mem_of_mem_filter h1
  exact lookup_isSome_of_mem_keys (mem_fileChildNames.mp h2)

theorem gatherImageFiles_mkdirIfAbsent (fs : FS) (q p : FsPath) :
    gatherImageFiles (fs.mkdirIfAbsent q) p = gatherImageFiles fs p := by
  unfold gatherImageFiles FS.fileChildNames
  rw [FS.files_mkdirIfAbsent]

/-! ### Path separation -/

theorem append_single_inj {t : FsPath} {n m : String}
    (h : t ++ [n] = t ++ [m]) : n = m := by
  have := List.append_cancel_left h
  simpa using this

theorem sibling_child_ne {t : FsPath} {x y n m : String} (hxy : x ≠ y) :
    (t ++ [x]) ++ [n] ≠ (t ++ [y]) ++ [m] := by
  intro h
  rw [List.append_assoc, List.append_assoc] at h
  have := List.append_cancel_left h
  simp only [List.cons_append, List.nil_append, List.cons.injEq] at this
  exact hxy this.1

theorem sibling_ne {t : FsPath} {x y : String} (hxy : x ≠ y) :
    t ++ [x] ≠ t ++ [y] := fun h => hxy (append_single_inj h)

/-! ### Transfer loop lemmas -/

theorem transferStep_dirs (fs : FS) (inp out : FsPath) (move dry : Bool)
    (i : Nat) (n : String) (f : Option String) :
    (transferStep fs inp out move dry i n f).1.dirs = fs.dirs := by
  unfold transferStep
  cases dry
  · cases f with
    | some cause => rfl
    | none =>
        cases hsrc : fs.lookupFile (inp ++ [n]) with
        | none => simp [hsrc]
        | some c => cases move <;> simp [hsrc, FS.setFile, FS.removeFile]
  · rfl

theorem transferStep_lookup_other (fs : FS) (inp out : FsPath) (move dry : Bool)
    (i : Nat) (n : String) (f : Option String) (p : FsPath)
    (hd : p ≠ out ++ [destName i n]) (hs : move = true → p ≠ inp ++ [n]) :
    (transferStep fs inp out move dry i n f).1.lookupFile p = fs.lookupFile p := by
  unfold transferStep
  cases dry
  · cases f with
    | some cause => rfl
    | none =>
        cases hsrc : fs.lookupFile (inp ++ [n]) with
        | none => simp [hsrc]
        | some c =>
            cases move
            · simp [hsrc, FS.lookupFile_setFile, hd]
            · simp [hsrc, FS.lookupFile_setFile, FS.lookupFile_removeFile, hd,
                hs rfl]
  · rfl

theorem runSteps_dirs (inp out : FsPath) (move dry : Bool)
    (fails : Nat → Option String) :
    ∀ (ns : List String) (i : Nat) (fs : FS),
      (runSteps fs inp out move dry fails i ns).1.dirs = fs.dirs := by
  intro ns
  induction ns with
  | nil => intro i fs; rfl
  | cons n ns ih =>
      intro i fs
      show (runSteps (transferStep fs inp out move dry i n (fails i)).1
        inp out move dry fails (i + 1) ns).1.dirs = fs.dirs
      rw [ih, transferStep_dirs]

theorem runSteps_dry (inp out : FsPath) (move : Bool)
    (fails : Nat → Option String) :
    ∀ (ns : List String) (i : Nat) (fs : FS),
      runSteps fs inp out move true fails i ns =
        (fs, (List.enumFrom i ns).map
          (fun p => LogLine.dryRunAction move p.2 (destName p.1 p.2))) := by
  intro ns
  induction ns with
  | nil => intro i fs; rfl
  | cons n ns ih =>
      intro i fs
      show ((runSteps (transferStep fs inp out move true i n (fails i)).1
          inp out move true fails (i + 1) ns).1,
        (transferStep fs inp out move true i n (fails i)).2 ++
          (runSteps (transferStep fs inp out move true i n (fails i)).1
            inp out move true fails (i + 1) ns).2) = _
      rw [show transferStep fs inp out move true i n (fails i) =
        (fs, [.dryRunAction move n (destName i n)]) from rfl]
      rw [ih]
      rfl

theorem runSteps_lookup_preserve (inp out : FsPath) (move dry : Bool)
    (fails : Nat → Option String) :
    ∀ (ns : List String) (i : Nat) (fs : FS) (p : FsPath),
      (∀ k n, ns.get? k = some n →
        p ≠ out ++ [destName (i + k) n] ∧ (move = true → p ≠ inp ++ [n])) →
      (runSteps fs inp out move dry fails i ns).1.lookupFile p = fs.lookupFile p := by
  intro ns
  induction ns with
  | nil => intro i fs p _; rfl
  | cons n ns ih =>
      intro i fs p hp
      show (runSteps (transferStep fs inp out move dry i n (fails i)).1
        inp out move dry fails (i + 1) ns).1.lookupFile p = fs.lookupFile p
      rw [ih (i + 1) _ p ?_]
      · have h0 := hp 0 n rfl
        rw [Nat.add_zero] at h0
        exact transferStep_lookup_other fs inp out move dry i n (fails i) p h0.1 h0.2
      · intro k m hk
        have := hp (k + 1) m hk
        rwa [show i + (k + 1) = i + 1 + k by omega] at this

theorem transferStep_lookup_dest (fs : FS) (inp out : FsPath) (move : Bool)
    (i : Nat) (n : String) (c : String)
    (hsrc : fs.lookupFile (inp ++ [n]) = some c) :
    (transferStep fs inp out move false i n none).1.lookupFile
      (out ++ [destName i n]) = some c := by
  unfold transferStep
  cases move <;> simp [hsrc, FS.lookupFile_setFile]

theorem transferStep_lookup_src (fs : FS) (inp out : FsPath)
    (i : Nat) (n : String)
    (hsep : inp ++ [n] ≠ out ++ [destName i n]) :
    (transferStep fs inp out true false i n none).1.lookupFile (inp ++ [n]) = none := by
  unfold transferStep
  cases hsrc : fs.lookupFile (inp ++ [n]) with
  | none => simp [hsrc]
  | some c => simp [hsrc, FS.lookupFile_setFile, FS.lookupFile_removeFile, hsep]

theorem transferStep_error_logs (fs : FS) (inp out : FsPath) (move : Bool)
    (i : Nat) (n : String) (cause : String) :
    (transferStep fs inp out move false i n (some cause)).2 =
      [.errorTransfer move (inp ++ [n]) (out ++ [destName i n]) cause] := by
  unfold transferStep
  rfl

theorem runSteps_dest_content (task : FsPath) (move : Bool)
    (fails : Nat → Option String) (c : String) :
    ∀ (ns : List String) (i : Nat) (fs : FS) (j : Nat) (hj : j < ns.length),
      ns.Nodup → fails (i + j) = none →
      fs.lookupFile ((task ++ ["image_inputs"]) ++ [ns.get ⟨j, hj⟩]) = some c →
      (runSteps fs (task ++ ["image_inputs"]) (task ++ ["trajectory"])
          move false fails i ns).1.lookupFile
        ((task ++ ["trajectory"]) ++ [destName (i + j) (ns.get ⟨j, hj⟩)]) = some c := by
  intro ns
  induction ns with
  | nil => intro i fs j hj; exact absurd hj (by simp)
  | cons n ns ih =>
      intro i fs j hj hnd hok hsrc
      cases j with
      | zero =>
          rw [Nat.add_zero] at hok ⊢
          have hget0 : (n :: ns).get ⟨0, hj⟩ = n := rfl
          rw [hget0] at hsrc ⊢
          show (runSteps (transferStep fs _ _ move false i n (fails i)).1
            _ _ move false fails (i + 1) ns).1.lookupFile _ = some c
          rw [runSteps_lookup_preserve _ _ move false fails ns (i + 1) _ _ ?_]
          · rw [hok]
            exact transferStep_lookup_dest fs _ _ move i n c hsrc
          · intro k m hk
            constructor
            · intro h
              have h2 := append_single_inj h
              have := destName_inj_index h2
              omega
            · intro _ h
              exact sibling_child_ne (by decide) h
      | succ j' =>
          have hj' : j' < ns.length := by simpa using hj
          show (runSteps (transferStep fs _ _ move false i n (fails i)).1
            _ _ move false fails (i + 1) ns).1.lookupFile _ = some c
          have hget : (n :: ns).get ⟨j' + 1, hj⟩ = ns.get ⟨j', hj'⟩ := rfl
          rw [hget] at hsrc ⊢
          have hm : ns.get ⟨j', hj'⟩ ≠ n := by
            intro h
            exact (List.nodup_cons.mp hnd).1 (h ▸ List.get_mem ns _ hj')
          have hsrc' : (transferStep fs (task ++ ["image_inputs"])
              (task ++ ["trajectory"]) move false i n (fails i)).1.lookupFile
              ((task ++ ["image_inputs"]) ++ [ns.get ⟨j', hj'⟩]) = some c := by
            rw [transferStep_lookup_other _ _ _ move false i n (fails i) _
              (sibling_child_ne (by decide)) (fun _ => sibling_ne hm)]
            exact hsrc
          have := ih (i + 1) (transferStep fs _ _ move false i n (fails i)).1
            j' hj' (List.nodup_cons.mp hnd).2
            (by rwa [show i + 1 + j' = i + (j' + 1) by omega]) hsrc'
          rwa [show i + 1 + j' = i + (j' + 1) by omega] at this

theorem runSteps_src_removed (task : FsPath) (fails : Nat → Option String) :
    ∀ (ns : List String) (i : Nat) (fs : FS) (j : Nat) (hj : j < ns.length),
      ns.Nodup → fails (i + j) = none →
      (runSteps fs (task ++ ["image_inputs"]) (task ++ ["trajectory"])
          true false fails i ns).1.lookupFile
        ((task ++ ["image_inputs"]) ++ [ns.get ⟨j, hj⟩]) = none := by
  intro ns
  induction ns with
  | nil => intro i fs j hj; exact absurd hj (by simp)
  | cons n ns ih =>
      intro i fs j hj hnd hok
      cases j with
      | zero =>
          rw [Nat.add_zero] at hok
          have hget0 : (n :: ns).get ⟨0, hj⟩ = n := rfl
          rw [hget0]
          show (runSteps (transferStep fs _ _ true false i n (fails i)).1
            _ _ true false fails (i + 1) ns).1.lookupFile _ = none
          rw [runSteps_lookup_preserve _ _ true false fails ns (i + 1) _ _ ?_]
          · rw [hok]
            exact transferStep_lookup_src fs _ _ i n (sibling_child_ne (by decide))
          · intro k m hk
            refine ⟨sibling_child_ne (by decide), fun _ h => ?_⟩
            have hm := append_single_inj h
            rcases List.get?_eq_some.mp hk with ⟨hlt, hget⟩
            have hmem : m ∈ ns := hget ▸ List.get_mem ns k hlt
            exact (List.nodup_cons.mp hnd).1 (by rw [hm]; exact hmem)
      | succ j' =>
          have hj' : j' < ns.length := by simpa using hj
          show (runSteps (transferStep fs _ _ true false i n (fails i)).1
            _ _ true false fails (i + 1) ns).1.lookupFile _ = none
          have hget : (n :: ns).get ⟨j' + 1, hj⟩ = ns.get ⟨j', hj'⟩ := rfl
          rw [hget]
          exact ih (i + 1) (transferStep fs (task ++ ["image_inputs"])
              (task ++ ["trajectory"]) true false i n (fails i)).1
            j' hj' (List.nodup_cons.mp hnd).2
            (by rwa [show i + 1 + j' = i + (j' + 1) by omega])

theorem runSteps_error_mem (inp out : FsPath) (move : Bool)
    (fails : Nat → Option String) :
    ∀ (ns : List String) (i : Nat) (fs : FS) (j : Nat) (hj : j < ns.length)
      (cause : String), fails (i + j) = some cause →
      LogLine.errorTransfer move (inp ++ [ns.get ⟨j, hj⟩])
          (out ++ [destName (i + j) (ns.get ⟨j, hj⟩)]) cause ∈
        (runSteps fs inp out move false fails i ns).2 := by
  intro ns
  induction ns with
  | nil => intro i fs j hj; exact absurd hj (by simp)
  | cons n ns ih =>
      intro i fs j hj cause hfail
      show _ ∈ (transferStep fs inp out move false i n (fails i)).2 ++
        (runSteps (transferStep fs inp out move false i n (fails i)).1
          inp out move false fails (i + 1) ns).2
      cases j with
      | zero =>
          rw [Nat.add_zero] at hfail
          refine List.mem_append_left _ ?_
          show _ ∈ (transferStep fs inp out move false i n (fails i)).2
          unfold transferStep
          rw [hfail]
          simp
      | succ j' =>
          have hj' : j' < ns.length := by simpa using hj
          refine List.mem_append_right _ ?_
          have := ih (i + 1) (transferStep fs inp out move false i n (fails i)).1
            j' hj' cause (by rwa [show i + 1 + j' = i + (j' + 1) by omega])
          rwa [show i + 1 + j' = i + (j' + 1) by omega] at this

/-! ### Directory bookkeeping lemmas -/

theorem FS.mkdirIfAbsent_of_isDir {fs : FS} {p : FsPath} (h : fs.isDir p = true) :
    fs.mkdirIfAbsent p = fs := by
  unfold FS.mkdirIfAbsent
  rw [if_pos h]

theorem FS.isDir_mkdirIfAbsent_self (fs : FS) (p : FsPath) :
    (fs.mkdirIfAbsent p).isDir p = true := by
  unfold FS.mkdirIfAbsent
  by_cases h : fs.isDir p = true
  · rw [if_pos h]; exact h
  · rw [if_neg h]
    simp [FS.isDir]

theorem FS.isDir_mkdirIfAbsent_other {fs : FS} {p q : FsPath} (h : p ≠ q) :
    (fs.mkdirIfAbsent q).isDir p = fs.isDir p := by
  unfold FS.mkdirIfAbsent
  by_cases hq : fs.isDir q = true
  · rw [if_pos hq]
  · rw [if_neg hq]
    unfold FS.isDir
    simp only [List.contains_cons, beq_eq_false_iff_ne.mpr h, Bool.false_or]

theorem contains_filter_ne_self (p : FsPath) :
    ∀ l : List FsPath, (l.filter (fun q => !(q == p))).contains p = false := by
  intro l
  induction l with
  | nil => rfl
  | cons q l ih =>
      by_cases hq : q = p
      · simp only [List.filter, beq_iff_eq.mpr hq, Bool.not_true]
        exact ih
      · have h1 : (q == p) = false := beq_eq_false_iff_ne.mpr hq
        have h2 : (p == q) = false := beq_eq_false_iff_ne.mpr (fun h => hq h.symm)
        simp only [List.filter, h1, Bool.not_false, List.contains_cons, h2,
          Bool.false_or]
        exact ih

theorem FS.isDir_rmdir_self (fs : FS) (p : FsPath) :
    (fs.rmdir p).isDir p = false := by
  unfold FS.rmdir FS.isDir
  exact contains_filter_ne_self p fs.dirs

theorem filterMap_filter_ne {α β : Type} [BEq α] [LawfulBEq α]
    (g : α → Option β) (p : α) (hg : g p = none) :
    ∀ l : List α, (l.filter (fun q => !(q == p))).filterMap g = l.filterMap g := by
  intro l
  induction l with
  | nil => rfl
  | cons q l ih =>
      by_cases hq : q = p
      · subst hq
        simpa [List.filter, List.filterMap_cons, hg] using ih
      · simp only [List.filter, beq_eq_false_iff_ne.mpr hq, Bool.not_false,
          List.filterMap_cons]
        cases hgq : g q with
        | none => simpa [hgq] using ih
        | some b => simp [hgq, ih]

theorem childOf_self_none {p : FsPath} (hp : p ≠ []) : childOf p p = none := by
  unfold childOf
  rw [if_neg]
  intro h
  have hlen := congrArg List.length h
  rw [List.length_dropLast] at hlen
  have := List.length_pos.mpr hp
  omega

theorem FS.childNames_rmdir_self {fs : FS} {p : FsPath} (hp : p ≠ []) :
    (fs.rmdir p).childNames p = fs.childNames p := by
  unfold FS.childNames FS.dirChildNames FS.fileChildNames FS.rmdir
  have := filterMap_filter_ne (childOf p) p (childOf_self_none hp) fs.dirs
  simp only at this ⊢
  rw [this]

theorem filterMap_filter_keys (g : FsPath → Option String) (q : FsPath)
    (hg : g q = none) :
    ∀ l : List (FsPath × String),
      ((l.filter (fun e => !(e.1 == q))).map Prod.fst).filterMap g =
        (l.map Prod.fst).filterMap g := by
  intro l
  induction l with
  | nil => rfl
  | cons e l ih =>
      by_cases he : e.1 = q
      · simpa [List.filter, beq_iff_eq.mpr he, List.filterMap_cons, he ▸ hg]
          using ih
      · simp only [List.filter, beq_eq_false_iff_ne.mpr he, Bool.not_false,
          List.map_cons, List.filterMap_cons]
        cases hge : g e.1 with
        | none => simpa [hge] using ih
        | some b => simp [hge, ih]

theorem childOf_concat_none {p out : FsPath} {d : String} (h : out ≠ p) :
    childOf p (out ++ [d]) = none := by
  unfold childOf
  rw [List.dropLast_concat, if_neg h]

theorem FS.fileChildNames_setFile {fs : FS} {q : FsPath} {c : String} {p : FsPath}
    (hq : childOf p q = none) :
    (fs.setFile q c).fileChildNames p = fs.fileChildNames p := by
  unfold FS.setFile FS.fileChildNames
  simp only [List.map_cons, List.filterMap_cons, hq]
  exact filterMap_filter_keys (childOf p) q hq fs.files

theorem FS.fileChildNames_removeFile {fs : FS} {q : FsPath} {p : FsPath}
    (hq : childOf p q = none) :
    (fs.removeFile q).fileChildNames p = fs.fileChildNames p := by
  unfold FS.removeFile FS.fileChildNames
  exact filterMap_filter_keys (childOf p) q hq fs.files

theorem transferStep_fail_state (fs : FS) (inp out : FsPath) (move dry : Bool)
    (i : Nat) (n : String) (cause : String) :
    (transferStep fs inp out move dry i n (some cause)).1 = fs := by
  unfold transferStep
  cases dry <;> rfl

theorem transferStep_nosrc_state (fs : FS) (inp out : FsPath) (move dry : Bool)
    (i : Nat) (n : String) (f : Option String)
    (hsrc : fs.lookupFile (inp ++ [n]) = none) :
    (transferStep fs inp out move dry i n f).1 = fs := by
  unfold transferStep
  cases dry
  · cases f with
    | some cause => rfl
    | none => simp [hsrc]
  · rfl

theorem transferStep_fileChildNames_copy (fs : FS) (inp out : FsPath) (dry : Bool)
    (i : Nat) (n : String) (f : Option String) (h : out ≠ inp) :
    (transferStep fs inp out false dry i n f).1.fileChildNames inp =
      fs.fileChildNames inp := by
  unfold transferStep
  cases dry
  · cases f with
    | some cause => rfl
    | none =>
        cases hsrc : fs.lookupFile (inp ++ [n]) with
        | none => simp [hsrc]
        | some c =>
            simp only [hsrc]
            exact FS.fileChildNames_setFile (childOf_concat_none h)
  · rfl

theorem runSteps_fileChildNames_copy (inp out : FsPath) (dry : Bool)
    (fails : Nat → Option String) (h : out ≠ inp) :
    ∀ (ns : List String) (i : Nat) (fs : FS),
      (runSteps fs inp out false dry fails i ns).1.fileChildNames inp =
        fs.fileChildNames inp := by
  intro ns
  induction ns with
  | nil => intro i fs; rfl
  | cons n ns ih =>
      intro i fs
      show (runSteps (transferStep fs inp out false dry i n (fails i)).1
        inp out false dry fails (i + 1) ns).1.fileChildNames inp = _
      rw [ih, transferStep_fileChildNames_copy fs inp out dry i n (fails i) h]

/-! ### Branches of `process_task` -/

/-- The state and log of the transfer loop of a non-dry `process_task`
run, starting from the state after the output folder was created. -/
def taskRun (fs : FS) (task : FsPath) (move : Bool)
    (fails : Nat → Option String) : FS × List LogLine :=
  runSteps (fs.mkdirIfAbsent (task ++ ["trajectory"])) (task ++ ["image_inputs"])
    (task ++ ["trajectory"]) move false fails 0
    (gatherImageFiles fs (task ++ ["image_inputs"]))

theorem processTask_skip (fs : FS) (task : FsPath) (move dry : Bool)
    (fails : Nat → Option String)
    (h : fs.isDir (task ++ ["image_inputs"]) = false) :
    processTask fs task move dry fails =
      (fs, [.skipNoImageInputs (pathName task)]) := by
  unfold processTask
  simp [h]

theorem processTask_empty (fs : FS) (task : FsPath) (move : Bool)
    (fails : Nat → Option String)
    (hdir : fs.isDir (task ++ ["image_inputs"]) = true)
    (hempty : gatherImageFiles fs (task ++ ["image_inputs"]) = []) :
    processTask fs task move false fails =
      (fs.mkdirIfAbsent (task ++ ["trajectory"]), [.skipEmpty (pathName task)]) := by
  unfold processTask
  simp [FS.pathExists, hdir, gatherImageFiles_mkdirIfAbsent, hempty]

theorem processTask_run (fs : FS) (task : FsPath) (move : Bool)
    (fails : Nat → Option String)
    (hdir : fs.isDir (task ++ ["image_inputs"]) = true)
    (himg : gatherImageFiles fs (task ++ ["image_inputs"]) ≠ []) :
    processTask fs task move false fails =
      (if move && ((taskRun fs task move fails).1.childNames
          (task ++ ["image_inputs"])).isEmpty then
        ((taskRun fs task move fails).1.rmdir (task ++ ["image_inputs"]),
         LogLine.processingHeader (pathName task)
             (gatherImageFiles fs (task ++ ["image_inputs"])).length ::
           (taskRun fs task move fails).2 ++
             [.removedEmptyFolder (task ++ ["image_inputs"])])
      else
        ((taskRun fs task move fails).1,
         LogLine.processingHeader (pathName task)
             (gatherImageFiles fs (task ++ ["image_inputs"])).length ::
           (taskRun fs task move fails).2)) := by
  unfold processTask taskRun
  simp only [FS.pathExists, hdir, Bool.true_or, Bool.not_true, Bool.false_or,
    Bool.or_false, if_false, Bool.false_eq_true, gatherImageFiles_mkdirIfAbsent,
    Bool.not_false, Bool.true_and, List.isEmpty_eq_false.mpr himg]
  cases move <;> simp

theorem processTask_lookup_run (fs : FS) (task : FsPath) (move : Bool)
    (fails : Nat → Option String)
    (hdir : fs.isDir (task ++ ["image_inputs"]) = true)
    (himg : gatherImageFiles fs (task ++ ["image_inputs"]) ≠ []) (p : FsPath) :
    (processTask fs task move false fails).1.lookupFile p =
      (taskRun fs task move fails).1.lookupFile p := by
  rw [processTask_run fs task move fails hdir himg]
  split <;> rfl

theorem processTask_logs_run_mem (fs : FS) (task : FsPath) (move : Bool)
    (fails : Nat → Option String)
    (hdir : fs.isDir (task ++ ["image_inputs"]) = true)
    (himg : gatherImageFiles fs (task ++ ["image_inputs"]) ≠ []) (l : LogLine)
    (hl : l ∈ (taskRun fs task move fails).2) :
    l ∈ (processTask fs task move false fails).2 := by
  rw [processTask_run fs task move fails hdir himg]
  split
  · exact List.mem_cons_of_mem _ (List.mem_append_left _ hl)
  · exact List.mem_cons_of_mem _ hl

theorem processTask_move_fst (fs : FS) (task : FsPath)
    (fails : Nat → Option String)
    (hdir : fs.isDir (task ++ ["image_inputs"]) = true)
    (himg : gatherImageFiles fs (task ++ ["image_inputs"]) ≠ []) :
    (processTask fs task true false fails).1 =
      if ((taskRun fs task true fails).1.childNames
          (task ++ ["image_inputs"])).isEmpty then
        (taskRun fs task true fails).1.rmdir (task ++ ["image_inputs"])
      else (taskRun fs task true fails).1 := by
  rw [processTask_run fs task true fails hdir himg]
  cases h : ((taskRun fs task true fails).1.childNames
      (task ++ ["image_inputs"])).isEmpty <;> simp [h]

theorem processTask_copy_eq (fs : FS) (task : FsPath)
    (fails : Nat → Option String)
    (hdir : fs.isDir (task ++ ["image_inputs"]) = true)
    (himg : gatherImageFiles fs (task ++ ["image_inputs"]) ≠ []) :
    processTask fs task false false fails =
      ((taskRun fs task false fails).1,
       LogLine.processingHeader (pathName task)
           (gatherImageFiles fs (task ++ ["image_inputs"])).length ::
         (taskRun fs task false fails).2) := by
  rw [processTask_run fs task false fails hdir himg]
  simp

/-! ### Dry-run and task-loop lemmas -/

theorem processTask_dry (fs : FS) (task : FsPath) (move : Bool)
    (fails : Nat → Option String) :
    processTask fs task move true fails =
      (fs,
       if fs.isDir (task ++ ["image_inputs"]) = false then
         [.skipNoImageInputs (pathName task)]
       else if gatherImageFiles fs (task ++ ["image_inputs"]) = [] then
         [.skipEmpty (pathName task)]
       else
         LogLine.processingHeader (pathName task)
             (gatherImageFiles fs (task ++ ["image_inputs"])).length ::
           (List.enumFrom 0 (gatherImageFiles fs (task ++ ["image_inputs"]))).map
             (fun p => LogLine.dryRunAction move p.2 (destName p.1 p.2))) := by
  by_cases hdir : fs.isDir (task ++ ["image_inputs"]) = true
  · by_cases hempty : gatherImageFiles fs (task ++ ["image_inputs"]) = []
    · unfold processTask
      simp [FS.pathExists, hdir, hempty]
    · unfold processTask
      simp [FS.pathExists, hdir, hempty, runSteps_dry,
        List.isEmpty_eq_false.mpr hempty]
  · rw [Bool.not_eq_true] at hdir
    rw [processTask_skip fs task move true fails hdir]
    simp [hdir]

theorem processTask_dry_fst (fs : FS) (task : FsPath) (move : Bool)
    (fails : Nat → Option String) :
    (processTask fs task move true fails).1 = fs := by
  rw [processTask_dry]

/-- The lines a dry run may print: skip diagnostics, the per-task header,
and the planned-action reports. -/
def isDryReportLine (l : LogLine) : Bool :=
  match l with
  | .skipNoImageInputs _ => true
  | .skipEmpty _ => true
  | .processingHeader _ _ => true
  | .dryRunAction _ _ _ => true
  | _ => false

theorem processTask_dry_logs_all (fs : FS) (task : FsPath) (move : Bool)
    (fails : Nat → Option String) :
    (processTask fs task move true fails).2.all isDryReportLine = true := by
  rw [processTask_dry]
  split
  · rfl
  · split
    · rfl
    · rw [List.all_eq_true]
      intro x hx
      rcases List.mem_cons.mp hx with hx | hx
      · subst hx; rfl
      · rcases List.mem_map.mp hx with ⟨q, _, hq⟩
        subst hq; rfl

theorem runTasks_dry_fst (root : FsPath) (move : Bool)
    (failsT : String → Nat → Option String) :
    ∀ (ts : List String) (fs : FS),
      (runTasks fs root move true failsT ts).1 = fs := by
  intro ts
  induction ts with
  | nil => intro fs; rfl
  | cons n ts ih =>
      intro fs
      unfold runTasks
      cases h : startsWithDot n
      · simp [h, ih, processTask_dry_fst]
      · simp [h, ih]

theorem runMain_dry_fst (fs : FS) (root : FsPath) (move : Bool)
    (failsT : String → Nat → Option String) :
    (runMain fs root move true failsT).1 = fs := by
  unfold runMain
  split
  · rfl
  · by_cases h : (fs.dirChildNames root).isEmpty = true
    · simp [h]
    · simp [h, runTasks_dry_fst]

/-- The task name announced by a `Processing task folder:` line, if the
line is one. -/
def processedName (l : LogLine) : Option String :=
  match l with
  | .processingTask n => some n
  | _ => none

theorem transferStep_no_processed (fs : FS) (inp out : FsPath) (move dry : Bool)
    (i : Nat) (n : String) (f : Option String) :
    ∀ l ∈ (transferStep fs inp out move dry i n f).2, processedName l = none := by
  unfold transferStep
  cases dry
  · cases f with
    | some cause =>
        intro l hl
        simp at hl
        subst hl; rfl
    | none =>
        cases hsrc : fs.lookupFile (inp ++ [n]) with
        | none =>
            intro l hl
            simp [hsrc] at hl
            subst hl; rfl
        | some c =>
            cases move <;>
              (intro l hl; simp [hsrc] at hl)
  · intro l hl
    simp at hl
    subst hl; rfl

theorem runSteps_no_processed (inp out : FsPath) (move dry : Bool)
    (fails : Nat → Option String) :
    ∀ (ns : List String) (i : Nat) (fs : FS),
      ∀ l ∈ (runSteps fs inp out move dry fails i ns).2, processedName l = none := by
  intro ns
  induction ns with
  | nil => intro i fs l hl; exact absurd hl (List.not_mem_nil l)
  | cons n ns ih =>
      intro i fs l hl
      rcases List.mem_append.mp hl with hl | hl
      · exact transferStep_no_processed fs inp out move dry i n (fails i) l hl
      · exact ih (i + 1) _ l hl

theorem processTask_no_processed (fs : FS) (task : FsPath) (move dry : Bool)
    (fails : Nat → Option String) :
    ∀ l ∈ (processTask fs task move dry fails).2, processedName l = none := by
  by_cases hdir : fs.isDir (task ++ ["image_inputs"]) = true
  · cases dry
    · by_cases hempty : gatherImageFiles fs (task ++ ["image_inputs"]) = []
      · rw [processTask_empty fs task move fails hdir hempty]
        intro l hl
        rw [List.mem_singleton] at hl
        subst hl; rfl
      · rw [processTask_run fs task move fails hdir hempty]
        intro l hl
        split at hl
        · rcases List.mem_cons.mp hl with hl | hl
          · subst hl; rfl
          · rcases List.mem_append.mp hl with hl | hl
            · exact runSteps_no_processed _ _ move false fails _ 0 _ l hl
            · rw [List.mem_singleton] at hl
              subst hl; rfl
        · rcases List.mem_cons.mp hl with hl | hl
          · subst hl; rfl
          · exact runSteps_no_processed _ _ move false fails _ 0 _ l hl
    · rw [processTask_dry]
      intro l hl
      split at hl
      · rw [List.mem_singleton] at hl
        subst hl; rfl
      · split at hl
        · rw [List.mem_singleton] at hl
          subst hl; rfl
        · rcases List.mem_cons.mp hl with hl | hl
          · subst hl; rfl
          · rcases List.mem_map.mp hl with ⟨q, _, hq⟩
            subst hq; rfl
  · rw [Bool.not_eq_true] at hdir
    rw [processTask_skip fs task move dry fails hdir]
    intro l hl
    rw [List.mem_singleton] at hl
    subst hl; rfl

theorem runTasks_processed (root : FsPath) (move dry : Bool)
    (failsT : String → Nat → Option String) :
    ∀ (ts : List String) (fs : FS),
      (runTasks fs root move dry failsT ts).2.filterMap processedName =
        ts.filter (fun n => !(startsWithDot n)) := by
  intro ts
  induction ts with
  | nil => intro fs; rfl
  | cons n ts ih =>
      intro fs
      unfold runTasks
      cases h : startsWithDot n
      · simp only [h, Bool.false_eq_true, if_false, List.filter_cons,
          Bool.not_false, if_true]
        rw [List.filterMap_append]
        rw [List.filterMap_cons_some
          (show processedName (LogLine.processingTask n) = some n from rfl)]
        rw [List.filterMap_eq_nil_iff.mpr (processTask_no_processed _ _ move dry _)]
        rw [ih]
        rfl
      · simp [h, ih]

/-! ### Sortedness of the gathered list -/

theorem gatherImageFiles_sorted (fs : FS) (folder : FsPath) :
    List.Sorted keyLe (gatherImageFiles fs folder) :=
  List.sorted_insertionSort keyLe ((fs.fileChildNames folder).filter isImageName)

theorem transferPlan_length (images : List String) :
    (transferPlan images).length = images.length := by
  simp [transferPlan]

theorem transferPlan_nodup_aux :
    ∀ (ns : List String) (i : Nat),
      ((List.enumFrom i ns).map (fun p => destName p.1 p.2)).Nodup := by
  intro ns
  induction ns with
  | nil => intro i; exact List.nodup_nil
  | cons n ns ih =>
      intro i
      rw [show List.enumFrom i (n :: ns) = (i, n) :: List.enumFrom (i + 1) ns
        from rfl]
      rw [List.map_cons, List.nodup_cons]
      refine ⟨?_, ih (i + 1)⟩
      intro hmem
      rcases List.mem_map.mp hmem with ⟨q, hq, hdq⟩
      obtain ⟨qi, qn⟩ := q
      have hji := destName_inj_index hdq
      have hge := (List.mem_enumFrom hq).1
      omega

theorem transferPlan_nodup (images : List String) :
    (transferPlan images).Nodup :=
  transferPlan_nodup_aux images 0

/-! ### The claims -/

/-- C1 (amended): in a gathered image folder, a filename without a leading
decimal digit can only be followed by prefixed filenames whose numeric
prefix reaches the sentinel `10^9`; equivalently, it sorts after every
prefixed filename whose prefix is below the sentinel.  Among themselves,
non-prefixed filenames are in alphabetical order. -/
theorem C1_sentinel_order (fs : FS) (folder : FsPath) (i j : Nat)
    (hij : i < j) (hj : j < (gatherImageFiles fs folder).length)
    (hnd : hasLeadingDigit ((gatherImageFiles fs folder).get
      ⟨i, lt_trans hij hj⟩) = false) :
    (hasLeadingDigit ((gatherImageFiles fs folder).get ⟨j, hj⟩) = true →
      10 ^ 9 ≤ numericPrefixVal ((gatherImageFiles fs folder).get ⟨j, hj⟩)) ∧
    (hasLeadingDigit ((gatherImageFiles fs folder).get ⟨j, hj⟩) = false →
      (gatherImageFiles fs folder).get ⟨i, lt_trans hij hj⟩ ≤
        (gatherImageFiles fs folder).get ⟨j, hj⟩) := by
  have hrel := (gatherImageFiles_sorted fs folder).rel_get_of_lt
    (show (⟨i, lt_trans hij hj⟩ : Fin (gatherImageFiles fs folder).length) <
      ⟨j, hj⟩ from hij)
  unfold keyLe at hrel
  have ha : (extract_sort_key ((gatherImageFiles fs folder).get
      ⟨i, lt_trans hij hj⟩)).1 = 10 ^ 9 := by
    unfold extract_sort_key
    rw [hnd]
    simp
  constructor
  · intro hbj
    have hb : (extract_sort_key ((gatherImageFiles fs folder).get ⟨j, hj⟩)).1 =
        numericPrefixVal ((gatherImageFiles fs folder).get ⟨j, hj⟩) := by
      unfold extract_sort_key
      rw [hbj]
      simp
    rw [ha, hb] at hrel
    rcases hrel with h | ⟨h, _⟩
    · exact le_of_lt h
    · exact le_of_eq h
  · intro hbj
    have hb : (extract_sort_key ((gatherImageFiles fs folder).get ⟨j, hj⟩)).1 =
        10 ^ 9 := by
      unfold extract_sort_key
      rw [hbj]
      simp
    rw [ha, hb] at hrel
    rcases hrel with h | ⟨_, h⟩
    · exact absurd h (lt_irrefl _)
    · exact h

/-- Image folder with a numeric prefix that exceeds the `10^9` sentinel. -/
def fsBigNum : FS :=
  ⟨[["t"], ["t", "image_inputs"]],
   [(["t", "image_inputs", "2000000000.png"], "a"),
    (["t", "image_inputs", "banner.png"], "b")]⟩

/-- C1 (counterexample): in this gathered folder, `banner.png`, which has
no leading digit, sorts before the prefixed filename `2000000000.png`
because the latter's numeric prefix exceeds the sentinel. -/
theorem C1_counterexample :
    hasLeadingDigit ("2000000000.png") = true ∧
    hasLeadingDigit ("banner.png") = false ∧
    gatherImageFiles fsBigNum ["t", "image_inputs"] =
      ["banner.png", "2000000000.png"] :=
  ⟨by decide, by decide, by decide⟩

/-- C1 witness at a concrete folder. -/
theorem C1_witness :
    (hasLeadingDigit ((gatherImageFiles fsBigNum ["t", "image_inputs"]).get
        ⟨1, by decide⟩) = true →
      10 ^ 9 ≤ numericPrefixVal ((gatherImageFiles fsBigNum
        ["t", "image_inputs"]).get ⟨1, by decide⟩)) ∧
    (hasLeadingDigit ((gatherImageFiles fsBigNum ["t", "image_inputs"]).get
        ⟨1, by decide⟩) = false →
      (gatherImageFiles fsBigNum ["t", "image_inputs"]).get ⟨0, by decide⟩ ≤
        (gatherImageFiles fsBigNum ["t", "image_inputs"]).get ⟨1, by decide⟩) :=
  C1_sentinel_order fsBigNum ["t", "image_inputs"] 0 1 (by decide) (by decide)
    (by decide)

/-- C2: the transfer plan for `N` sorted images is exactly `N` pairwise
distinct destination names; the `i`-th is `step_{i}_screenshot` followed by
the `i`-th source's extension lower-cased, so it depends only on the
position `i` and the preserved extension. -/
theorem C2_transfer_names (images : List String) :
    (transferPlan images).length = images.length ∧
    (transferPlan images).Nodup ∧
    ∀ (i : Nat) (h : i < images.length),
      (transferPlan images).get ⟨i, by rw [transferPlan_length]; exact h⟩ =
        "step_" ++ natRepr i ++ "_screenshot" ++
          strLower (pySuffix (images.get ⟨i, h⟩)) := by
  refine ⟨transferPlan_length images, transferPlan_nodup images, ?_⟩
  intro i h
  show (transferPlan images).get _ = destName i (images.get ⟨i, h⟩)
  simp only [transferPlan, List.enum]
  rw [List.get_map, List.get_enumFrom]
  simp

/-- C2 witness at a concrete image list. -/
theorem C2_witness :
    (transferPlan ["10.PNG", "b.jpg"]).length = 2 ∧
    (transferPlan ["10.PNG", "b.jpg"]).Nodup ∧
    (transferPlan ["10.PNG", "b.jpg"]).get ⟨0, by decide⟩ =
      "step_" ++ natRepr 0 ++ "_screenshot" ++
        strLower (pySuffix (["10.PNG", "b.jpg"].get ⟨0, by decide⟩)) := by
  obtain ⟨h1, h2, h3⟩ := C2_transfer_names ["10.PNG", "b.jpg"]
  exact ⟨h1, h2, h3 0 (by decide)⟩

/-- C3: among gathered filenames that both start with digits, the sorted
order is ascending in the numeric prefix, with exact ties broken by
lexicographic order of the full filename. -/
theorem C3_numeric_order (fs : FS) (folder : FsPath) (i j : Nat)
    (hwf : (fs.files.map Prod.fst).Nodup)
    (hij : i < j) (hj : j < (gatherImageFiles fs folder).length)
    (hdi : hasLeadingDigit ((gatherImageFiles fs folder).get
      ⟨i, lt_trans hij hj⟩) = true)
    (hdj : hasLeadingDigit ((gatherImageFiles fs folder).get ⟨j, hj⟩) = true) :
    numericPrefixVal ((gatherImageFiles fs folder).get ⟨i, lt_trans hij hj⟩) <
      numericPrefixVal ((gatherImageFiles fs folder).get ⟨j, hj⟩) ∨
    (numericPrefixVal ((gatherImageFiles fs folder).get ⟨i, lt_trans hij hj⟩) =
      numericPrefixVal ((gatherImageFiles fs folder).get ⟨j, hj⟩) ∧
      (gatherImageFiles fs folder).get ⟨i, lt_trans hij hj⟩ <
        (gatherImageFiles fs folder).get ⟨j, hj⟩) := by
  have hrel := (gatherImageFiles_sorted fs folder).rel_get_of_lt
    (show (⟨i, lt_trans hij hj⟩ : Fin (gatherImageFiles fs folder).length) <
      ⟨j, hj⟩ from hij)
  unfold keyLe at hrel
  have ha : (extract_sort_key ((gatherImageFiles fs folder).get
      ⟨i, lt_trans hij hj⟩)).1 =
      numericPrefixVal ((gatherImageFiles fs folder).get
        ⟨i, lt_trans hij hj⟩) := by
    unfold extract_sort_key
    rw [hdi]
    simp
  have hb : (extract_sort_key ((gatherImageFiles fs folder).get ⟨j, hj⟩)).1 =
      numericPrefixVal ((gatherImageFiles fs folder).get ⟨j, hj⟩) := by
    unfold extract_sort_key
    rw [hdj]
    simp
  rw [ha, hb] at hrel
  rcases hrel with h | ⟨h, hle⟩
  · exact Or.inl h
  · refine Or.inr ⟨h, lt_of_le_of_ne hle ?_⟩
    intro heq
    have := ((gatherImageFiles_nodup folder hwf).get_inj_iff).mp heq
    rw [Fin.mk.injEq] at this
    omega

/-- Image folder with two numerically prefixed names, for the C3 witness. -/
def fsNums : FS :=
  ⟨[["t"], ["t", "image_inputs"]],
   [(["t", "image_inputs", "2.png"], "a"),
    (["t", "image_inputs", "10.png"], "b")]⟩

/-- C3 witness at a concrete folder. -/
theorem C3_witness :
    numericPrefixVal ((gatherImageFiles fsNums ["t", "image_inputs"]).get
        ⟨0, by decide⟩) <
      numericPrefixVal ((gatherImageFiles fsNums ["t", "image_inputs"]).get
        ⟨1, by decide⟩) ∨
    (numericPrefixVal ((gatherImageFiles fsNums ["t", "image_inputs"]).get
        ⟨0, by decide⟩) =
      numericPrefixVal ((gatherImageFiles fsNums ["t", "image_inputs"]).get
        ⟨1, by decide⟩) ∧
      (gatherImageFiles fsNums ["t", "image_inputs"]).get ⟨0, by decide⟩ <
        (gatherImageFiles fsNums ["t", "image_inputs"]).get ⟨1, by decide⟩) :=
  C3_numeric_order fsNums ["t", "image_inputs"] 0 1 (by decide) (by decide)
    (by decide) (by decide) (by decide)

/-- C4: a dry run leaves the filesystem exactly as it was, at the level of
the whole run and of a single task, and a dry task prints only skip
diagnostics, the header, and planned-action reports. -/
theorem C4_dry_run_frame (fs : FS) (root task : FsPath) (move : Bool)
    (failsT : String → Nat → Option String) (fails : Nat → Option String) :
    (runMain fs root move true failsT).1 = fs ∧
    (processTask fs task move true fails).1 = fs ∧
    (processTask fs task move true fails).2.all isDryReportLine = true :=
  ⟨runMain_dry_fst fs root move failsT, processTask_dry_fst fs task move fails,
   processTask_dry_logs_all fs task move fails⟩

/-- C8: a missing or non-directory root is reported and the run returns
with the filesystem untouched; a root without subdirectories is likewise
reported and the run stops before processing any task. -/
theorem C8_rootGuard (fs : FS) (root : FsPath) (move dry : Bool)
    (failsT : String → Nat → Option String) :
    (fs.isDir root = false →
      runMain fs root move dry failsT = (fs, [.rootNotFound root])) ∧
    (fs.isDir root = true → fs.dirChildNames root = [] →
      runMain fs root move dry failsT = (fs, [.noTaskFolders root])) := by
  constructor
  · intro h
    unfold runMain
    simp [h]
  · intro h hemp
    unfold runMain
    simp [FS.pathExists, h, hemp]

/-- Filesystem without the root directory, for the C8 witness. -/
def fsNoRoot : FS := ⟨[], []⟩

/-- Filesystem whose root has no subdirectories, for the C8 witness. -/
def fsEmptyRoot : FS := ⟨[["r"]], []⟩

/-- C8 witness at two concrete filesystems. -/
theorem C8_witness :
    runMain fsNoRoot ["r"] false false (fun _ _ => none) =
      (fsNoRoot, [.rootNotFound ["r"]]) ∧
    runMain fsEmptyRoot ["r"] false false (fun _ _ => none) =
      (fsEmptyRoot, [.noTaskFolders ["r"]]) :=
  ⟨(C8_rootGuard fsNoRoot ["r"] false false (fun _ _ => none)).1 (by decide),
   (C8_rootGuard fsEmptyRoot ["r"] false false (fun _ _ => none)).2 (by decide)
     (by decide)⟩

/-- C9: the tasks the run announces as processed are exactly the immediate
subdirectories of the root without the hidden ones (leading dot), in
lexicographic order, and a hidden subdirectory is never announced. -/
theorem C9_task_enumeration (fs : FS) (root : FsPath) (move dry : Bool)
    (failsT : String → Nat → Option String)
    (hroot : fs.isDir root = true) :
    (runMain fs root move dry failsT).2.filterMap processedName =
      (sortStrings (fs.dirChildNames root)).filter
        (fun n => !(startsWithDot n)) ∧
    List.Sorted (· ≤ ·)
      ((sortStrings (fs.dirChildNames root)).filter
        (fun n => !(startsWithDot n))) ∧
    ∀ n, startsWithDot n = true →
      n ∉ (runMain fs root move dry failsT).2.filterMap processedName := by
  have h1 : (runMain fs root move dry failsT).2.filterMap processedName =
      (sortStrings (fs.dirChildNames root)).filter
        (fun n => !(startsWithDot n)) := by
    unfold runMain
    simp only [FS.pathExists, hroot, Bool.true_or, Bool.not_true, Bool.false_or,
      Bool.or_false, if_false, Bool.false_eq_true]
    by_cases hemp : (fs.dirChildNames root).isEmpty = true
    · have hnil : fs.dirChildNames root = [] := List.isEmpty_iff.mp hemp
      simp [hemp, hnil, processedName, sortStrings]
    · simp only [hemp, if_false, Bool.false_eq_true]
      rw [show (LogLine.foundTasks (fs.dirChildNames root).length root ::
          (runTasks fs root move dry failsT
            (sortStrings (fs.dirChildNames root))).2 ++ [LogLine.done]) =
        (LogLine.foundTasks (fs.dirChildNames root).length root ::
          (runTasks fs root move dry failsT
            (sortStrings (fs.dirChildNames root))).2) ++ [LogLine.done] from rfl]
      rw [List.filterMap_append]
      rw [List.filterMap_cons_none
        (show processedName (LogLine.foundTasks
          (fs.dirChildNames root).length root) = none from rfl)]
      rw [runTasks_processed]
      simp [processedName]
  refine ⟨h1, ?_, ?_⟩
  · exact List.Pairwise.filter _
      (List.sorted_insertionSort (· ≤ ·) (fs.dirChildNames root))
  · intro n hdot hmem
    rw [h1] at hmem
    have := (List.mem_filter.mp hmem).2
    rw [hdot] at this
    exact Bool.noConfusion this

/-- Root with one hidden and two visible task folders, for the C9
witness. -/
def fsTasks : FS :=
  ⟨[["r"], ["r", "b"], ["r", ".hid"], ["r", "a"]], []⟩

/-- C9 witness at a concrete root. -/
theorem C9_witness :
    (runMain fsTasks ["r"] false false (fun _ _ => none)).2.filterMap
        processedName =
      (sortStrings (fsTasks.dirChildNames ["r"])).filter
        (fun n => !(startsWithDot n)) ∧
    List.Sorted (· ≤ ·)
      ((sortStrings (fsTasks.dirChildNames ["r"])).filter
        (fun n => !(startsWithDot n))) ∧
    ∀ n, startsWithDot n = true →
      n ∉ (runMain fsTasks ["r"] false false (fun _ _ => none)).2.filterMap
        processedName :=
  C9_task_enumeration fsTasks ["r"] false false (fun _ _ => none) (by decide)

/-- C10: a non-dry run on a task whose input folder exists but holds no
recognized image reports the empty-folder skip, yet has already created
the trajectory folder: when that folder was absent before, even the
skipped task mutates the filesystem. -/
theorem C10_empty_task_mkdir (fs : FS) (task : FsPath) (move : Bool)
    (fails : Nat → Option String)
    (hdir : fs.isDir (task ++ ["image_inputs"]) = true)
    (hempty : gatherImageFiles fs (task ++ ["image_inputs"]) = []) :
    processTask fs task move false fails =
      (fs.mkdirIfAbsent (task ++ ["trajectory"]), [.skipEmpty (pathName task)]) ∧
    (processTask fs task move false fails).1.isDir (task ++ ["trajectory"]) =
      true ∧
    (fs.isDir (task ++ ["trajectory"]) = false →
      (processTask fs task move false fails).1 ≠ fs) := by
  have h1 := processTask_empty fs task move fails hdir hempty
  refine ⟨h1, ?_, ?_⟩
  · rw [h1]
    exact FS.isDir_mkdirIfAbsent_self fs _
  · intro hout heq
    have h2 : (processTask fs task move false fails).1.isDir
        (task ++ ["trajectory"]) = true := by
      rw [h1]
      exact FS.isDir_mkdirIfAbsent_self fs _
    rw [heq, hout] at h2
    exact Bool.noConfusion h2

/-- Task with an existing but imageless input folder, for the C10
witness. -/
def fsEmptyTask : FS :=
  ⟨[["t"], ["t", "image_inputs"]], [(["t", "image_inputs", "notes.txt"], "n")]⟩

/-- C10 witness at a concrete task. -/
theorem C10_witness :
    processTask fsEmptyTask ["t"] false false (fun _ => none) =
      (fsEmptyTask.mkdirIfAbsent (["t"] ++ ["trajectory"]),
       [.skipEmpty (pathName ["t"])]) ∧
    (processTask fsEmptyTask ["t"] false false (fun _ => none)).1.isDir
      (["t"] ++ ["trajectory"]) = true ∧
    (fsEmptyTask.isDir (["t"] ++ ["trajectory"]) = false →
      (processTask fsEmptyTask ["t"] false false (fun _ => none)).1 ≠
        fsEmptyTask) :=
  C10_empty_task_mkdir fsEmptyTask ["t"] false (fun _ => none) (by decide)
    (by decide)

/-- Task whose input folder exists but gathers zero images, in move mode,
for the C5 counterexample. -/
def fsEmptyMove : FS := ⟨[["t"], ["t", "image_inputs"]], []⟩

/-- C5 (counterexample): in move mode with every transfer succeeding
(vacuously), after the run the input folder is empty yet still exists:
a task with zero gathered images is skipped before the move loop and its
folder is never removed. -/
theorem C5_counterexample :
    (processTask fsEmptyMove ["t"] true false (fun _ => none)).1.childNames
      (["t"] ++ ["image_inputs"]) = [] ∧
    (processTask fsEmptyMove ["t"] true false (fun _ => none)).1.isDir
      (["t"] ++ ["image_inputs"]) = true :=
  ⟨by decide, by decide⟩

/-- C5 (amended): in move mode, for a task whose input folder exists,
that gathered at least one image, and whose transfers all succeed: no
gathered source file remains afterwards; if the input folder ends up with
no entries the folder itself is gone; and each destination file holds the
content its source had before the run. -/
theorem C5_move_amended (fs : FS) (task : FsPath) (fails : Nat → Option String)
    (hwf : (fs.files.map Prod.fst).Nodup)
    (hdir : fs.isDir (task ++ ["image_inputs"]) = true)
    (himg : gatherImageFiles fs (task ++ ["image_inputs"]) ≠ [])
    (hok : ∀ k, k < (gatherImageFiles fs (task ++ ["image_inputs"])).length →
      fails k = none) :
    (∀ (j : Nat)
        (hj : j < (gatherImageFiles fs (task ++ ["image_inputs"])).length),
      (processTask fs task true false fails).1.lookupFile
        ((task ++ ["image_inputs"]) ++
          [(gatherImageFiles fs (task ++ ["image_inputs"])).get ⟨j, hj⟩]) =
        none) ∧
    ((processTask fs task true false fails).1.childNames
        (task ++ ["image_inputs"]) = [] →
      (processTask fs task true false fails).1.isDir
        (task ++ ["image_inputs"]) = false) ∧
    (∀ (j : Nat)
        (hj : j < (gatherImageFiles fs (task ++ ["image_inputs"])).length),
      (processTask fs task true false fails).1.lookupFile
        ((task ++ ["trajectory"]) ++
          [destName j
            ((gatherImageFiles fs (task ++ ["image_inputs"])).get ⟨j, hj⟩)]) =
        fs.lookupFile ((task ++ ["image_inputs"]) ++
          [(gatherImageFiles fs (task ++ ["image_inputs"])).get ⟨j, hj⟩])) := by
  have hnd := gatherImageFiles_nodup (task ++ ["image_inputs"]) hwf
  refine ⟨?_, ?_, ?_⟩
  · intro j hj
    rw [processTask_lookup_run fs task true fails hdir himg]
    unfold taskRun
    exact runSteps_src_removed task fails
      (gatherImageFiles fs (task ++ ["image_inputs"])) 0
      (fs.mkdirIfAbsent (task ++ ["trajectory"])) j hj hnd
      (by rw [Nat.zero_add]; exact hok j hj)
  · intro hempty
    rw [processTask_move_fst fs task fails hdir himg] at hempty ⊢
    by_cases hie : ((taskRun fs task true fails).1.childNames
        (task ++ ["image_inputs"])).isEmpty = true
    · rw [if_pos hie]
      exact FS.isDir_rmdir_self _ _
    · rw [if_neg hie] at hempty
      exact absurd (List.isEmpty_iff.mpr hempty) hie
  · intro j hj
    rw [processTask_lookup_run fs task true fails hdir himg]
    unfold taskRun
    obtain ⟨c, hc⟩ := gatherImageFiles_present
      (List.get_mem (gatherImageFiles fs (task ++ ["image_inputs"])) j hj)
    have hc1 : (fs.mkdirIfAbsent (task ++ ["trajectory"])).lookupFile
        ((task ++ ["image_inputs"]) ++
          [(gatherImageFiles fs (task ++ ["image_inputs"])).get ⟨j, hj⟩]) =
        some c := by
      rw [FS.lookupFile_mkdirIfAbsent]
      exact hc
    have hd := runSteps_dest_content task true fails c
      (gatherImageFiles fs (task ++ ["image_inputs"])) 0
      (fs.mkdirIfAbsent (task ++ ["trajectory"])) j hj hnd
      (by rw [Nat.zero_add]; exact hok j hj) hc1
    rw [Nat.zero_add] at hd
    rw [hd, hc]

/-- Task with one image in move mode, for the C5 witness. -/
def fsOneMove : FS :=
  ⟨[["t"], ["t", "image_inputs"]], [(["t", "image_inputs", "1.png"], "c")]⟩

/-- C5 witness at a concrete task. -/
theorem C5_witness :
    (processTask fsOneMove ["t"] true false (fun _ => none)).1.lookupFile
      ((["t"] ++ ["image_inputs"]) ++
        [(gatherImageFiles fsOneMove (["t"] ++ ["image_inputs"])).get
          ⟨0, by decide⟩]) = none ∧
    ((processTask fsOneMove ["t"] true false (fun _ => none)).1.childNames
        (["t"] ++ ["image_inputs"]) = [] →
      (processTask fsOneMove ["t"] true false (fun _ => none)).1.isDir
        (["t"] ++ ["image_inputs"]) = false) ∧
    (processTask fsOneMove ["t"] true false (fun _ => none)).1.lookupFile
      ((["t"] ++ ["trajectory"]) ++
        [destName 0 ((gatherImageFiles fsOneMove
          (["t"] ++ ["image_inputs"])).get ⟨0, by decide⟩)]) =
      fsOneMove.lookupFile ((["t"] ++ ["image_inputs"]) ++
        [(gatherImageFiles fsOneMove (["t"] ++ ["image_inputs"])).get
          ⟨0, by decide⟩]) := by
  obtain ⟨h1, h2, h3⟩ := C5_move_amended fsOneMove ["t"] (fun _ => none)
    (by decide) (by decide) (by decide) (fun k hk => rfl)
  exact ⟨h1 0 (by decide), h2, h3 0 (by decide)⟩

/-- C7: a failure of the copy or move primitive on one file is reported
with the source path, the destination path, and the cause, and the other
files of the task are still transferred: every index whose transfer
succeeds ends up with its destination holding the source's content. -/
theorem C7_error_containment (fs : FS) (task : FsPath) (move : Bool)
    (fails : Nat → Option String)
    (hwf : (fs.files.map Prod.fst).Nodup)
    (hdir : fs.isDir (task ++ ["image_inputs"]) = true) :
    (∀ (i : Nat)
        (hi : i < (gatherImageFiles fs (task ++ ["image_inputs"])).length)
        (cause : String), fails i = some cause →
      LogLine.errorTransfer move
          ((task ++ ["image_inputs"]) ++
            [(gatherImageFiles fs (task ++ ["image_inputs"])).get ⟨i, hi⟩])
          ((task ++ ["trajectory"]) ++
            [destName i
              ((gatherImageFiles fs (task ++ ["image_inputs"])).get ⟨i, hi⟩)])
          cause ∈ (processTask fs task move false fails).2) ∧
    (∀ (j : Nat)
        (hj : j < (gatherImageFiles fs (task ++ ["image_inputs"])).length),
      fails j = none →
      (processTask fs task move false fails).1.lookupFile
        ((task ++ ["trajectory"]) ++
          [destName j
            ((gatherImageFiles fs (task ++ ["image_inputs"])).get ⟨j, hj⟩)]) =
        fs.lookupFile ((task ++ ["image_inputs"]) ++
          [(gatherImageFiles fs (task ++ ["image_inputs"])).get ⟨j, hj⟩])) := by
  constructor
  · intro i hi cause hc
    have himg : gatherImageFiles fs (task ++ ["image_inputs"]) ≠ [] := by
      intro h
      rw [h] at hi
      exact absurd hi (by simp)
    refine processTask_logs_run_mem fs task move fails hdir himg _ ?_
    unfold taskRun
    have hmem := runSteps_error_mem (task ++ ["image_inputs"])
      (task ++ ["trajectory"]) move fails
      (gatherImageFiles fs (task ++ ["image_inputs"])) 0
      (fs.mkdirIfAbsent (task ++ ["trajectory"])) i hi cause
      (by rw [Nat.zero_add]; exact hc)
    rwa [Nat.zero_add] at hmem
  · intro j hj hokj
    have himg : gatherImageFiles fs (task ++ ["image_inputs"]) ≠ [] := by
      intro h
      rw [h] at hj
      exact absurd hj (by simp)
    have hnd := gatherImageFiles_nodup (task ++ ["image_inputs"]) hwf
    rw [processTask_lookup_run fs task move fails hdir himg]
    unfold taskRun
    obtain ⟨c, hc⟩ := gatherImageFiles_present
      (List.get_mem (gatherImageFiles fs (task ++ ["image_inputs"])) j hj)
    have hc1 : (fs.mkdirIfAbsent (task ++ ["trajectory"])).lookupFile
        ((task ++ ["image_inputs"]) ++
          [(gatherImageFiles fs (task ++ ["image_inputs"])).get ⟨j, hj⟩]) =
        some c := by
      rw [FS.lookupFile_mkdirIfAbsent]
      exact hc
    have hd := runSteps_dest_content task move fails c
      (gatherImageFiles fs (task ++ ["image_inputs"])) 0
      (fs.mkdirIfAbsent (task ++ ["trajectory"])) j hj hnd
      (by rw [Nat.zero_add]; exact hokj) hc1
    rw [Nat.zero_add] at hd
    rw [hd, hc]

/-- Task with two images whose first transfer fails, for the C7
witness. -/
def fsTwoImgs : FS :=
  ⟨[["t"], ["t", "image_inputs"]],
   [(["t", "image_inputs", "1.png"], "a"), (["t", "image_inputs", "2.png"], "b")]⟩

/-- Oracle failing exactly the first transfer, for the C7 witness. -/
def failFirst : Nat → Option String :=
  fun k => if k = 0 then some ("boom") else none

/-- C7 witness at a concrete task with a failing first transfer. -/
theorem C7_witness :
    LogLine.errorTransfer false
        ((["t"] ++ ["image_inputs"]) ++
          [(gatherImageFiles fsTwoImgs (["t"] ++ ["image_inputs"])).get
            ⟨0, by decide⟩])
        ((["t"] ++ ["trajectory"]) ++
          [destName 0 ((gatherImageFiles fsTwoImgs
            (["t"] ++ ["image_inputs"])).get ⟨0, by decide⟩)])
        "boom" ∈ (processTask fsTwoImgs ["t"] false false failFirst).2 ∧
    (processTask fsTwoImgs ["t"] false false failFirst).1.lookupFile
      ((["t"] ++ ["trajectory"]) ++
        [destName 1 ((gatherImageFiles fsTwoImgs
          (["t"] ++ ["image_inputs"])).get ⟨1, by decide⟩)]) =
      fsTwoImgs.lookupFile ((["t"] ++ ["image_inputs"]) ++
        [(gatherImageFiles fsTwoImgs (["t"] ++ ["image_inputs"])).get
          ⟨1, by decide⟩]) := by
  obtain ⟨h1, h2⟩ := C7_error_containment fsTwoImgs ["t"] false failFirst
    (by decide) (by decide)
  exact ⟨h1 0 (by decide) "boom" rfl, h2 1 (by decide) rfl⟩

/-! ### Write-list characterization of the copy loop -/

/-- The file writes the copy loop performs, in order: one destination
write per surviving step; a failing step or a missing source writes
nothing. -/
def copyWrites (fs : FS) (inp out : FsPath) (fails : Nat → Option String)
    (i : Nat) (ns : List String) : List (FsPath × String) :=
  (List.enumFrom i ns).filterMap (fun q =>
    match fails q.1, fs.lookupFile (inp ++ [q.2]) with
    | none, some c => some (out ++ [destName q.1 q.2], c)
    | _, _ => none)

/-- Replay a list of writes over a base lookup result: the last write to
the path wins. -/
def applyWritesLookup (ws : List (FsPath × String)) (b : Option String)
    (p : FsPath) : Option String :=
  ws.foldl (fun acc w => if w.1 = p then some w.2 else acc) b

theorem applyWritesLookup_cons (w : FsPath × String) (ws : List (FsPath × String))
    (b : Option String) (p : FsPath) :
    applyWritesLookup (w :: ws) b p =
      applyWritesLookup ws (if w.1 = p then some w.2 else b) p := rfl

theorem applyWritesLookup_cases (p : FsPath) :
    ∀ ws : List (FsPath × String),
      (∀ b, applyWritesLookup ws b p = b) ∨
      (∀ b b', applyWritesLookup ws b p = applyWritesLookup ws b' p) := by
  intro ws
  induction ws with
  | nil => exact Or.inl (fun b => rfl)
  | cons w ws ih =>
      by_cases hw : w.1 = p
      · refine Or.inr (fun b b' => ?_)
        rw [applyWritesLookup_cons, applyWritesLookup_cons, if_pos hw, if_pos hw]
      · rcases ih with h | h
        · refine Or.inl (fun b => ?_)
          rw [applyWritesLookup_cons, if_neg hw]
          exact h b
        · refine Or.inr (fun b b' => ?_)
          rw [applyWritesLookup_cons, applyWritesLookup_cons, if_neg hw,
            if_neg hw]
          exact h b b'

theorem applyWritesLookup_idem (ws : List (FsPath × String)) (b : Option String)
    (p : FsPath) :
    applyWritesLookup ws (applyWritesLookup ws b p) p =
      applyWritesLookup ws b p := by
  rcases applyWritesLookup_cases p ws with h | h
  · exact h (applyWritesLookup ws b p)
  · exact h (applyWritesLookup ws b p) b

theorem copyWrites_congr (inp out : FsPath) (fails : Nat → Option String)
    (ns : List String) (i : Nat) {fs fs' : FS}
    (h : ∀ m : String, fs'.lookupFile (inp ++ [m]) = fs.lookupFile (inp ++ [m])) :
    copyWrites fs' inp out fails i ns = copyWrites fs inp out fails i ns := by
  unfold copyWrites
  refine List.filterMap_congr (fun q _ => ?_)
  rw [h q.2]

theorem runSteps_copy_reads (inp out : FsPath) (fails : Nat → Option String)
    (hsep : ∀ m d : String, inp ++ [m] ≠ out ++ [d]) :
    ∀ (ns : List String) (i : Nat) (fs : FS) (m : String),
      (runSteps fs inp out false false fails i ns).1.lookupFile (inp ++ [m]) =
        fs.lookupFile (inp ++ [m]) := by
  intro ns
  induction ns with
  | nil => intro i fs m; rfl
  | cons n ns ih =>
      intro i fs m
      show (runSteps (transferStep fs inp out false false i n (fails i)).1
        inp out false false fails (i + 1) ns).1.lookupFile (inp ++ [m]) = _
      rw [ih (i + 1)]
      exact transferStep_lookup_other fs inp out false false i n (fails i) _
        (hsep m _) (fun hmv => Bool.noConfusion hmv)

theorem runSteps_copy_lookup (inp out : FsPath) (fails : Nat → Option String)
    (hsep : ∀ m d : String, inp ++ [m] ≠ out ++ [d]) :
    ∀ (ns : List String) (i : Nat) (fs : FS) (p : FsPath),
      (runSteps fs inp out false false fails i ns).1.lookupFile p =
        applyWritesLookup (copyWrites fs inp out fails i ns)
          (fs.lookupFile p) p := by
  intro ns
  induction ns with
  | nil => intro i fs p; rfl
  | cons n ns ih =>
      intro i fs p
      show (runSteps (transferStep fs inp out false false i n (fails i)).1
        inp out false false fails (i + 1) ns).1.lookupFile p = _
      rw [ih (i + 1)]
      have hreads : ∀ m : String,
          (transferStep fs inp out false false i n (fails i)).1.lookupFile
            (inp ++ [m]) = fs.lookupFile (inp ++ [m]) := fun m =>
        transferStep_lookup_other fs inp out false false i n (fails i) _
          (hsep m _) (fun hmv => Bool.noConfusion hmv)
      rw [copyWrites_congr inp out fails ns (i + 1) hreads]
      have hcons : List.enumFrom i (n :: ns) =
          (i, n) :: List.enumFrom (i + 1) ns := rfl
      cases hf : fails i with
      | some cause =>
          have hfs : (transferStep fs inp out false false i n (some cause)).1 =
              fs :=
            transferStep_fail_state fs inp out false false i n cause
          have hcwh : copyWrites fs inp out fails i (n :: ns) =
              copyWrites fs inp out fails (i + 1) ns := by
            unfold copyWrites
            rw [hcons, List.filterMap_cons_none (by simp [hf])]
          rw [hfs, hcwh]
      | none =>
          cases hsrc : fs.lookupFile (inp ++ [n]) with
          | none =>
              have hfs : (transferStep fs inp out false false i n none).1 = fs :=
                transferStep_nosrc_state fs inp out false false i n none hsrc
              have hcwh : copyWrites fs inp out fails i (n :: ns) =
                  copyWrites fs inp out fails (i + 1) ns := by
                unfold copyWrites
                rw [hcons, List.filterMap_cons_none (by simp [hf, hsrc])]
              rw [hfs, hcwh]
          | some c =>
              have hfs : (transferStep fs inp out false false i n none).1 =
                  fs.setFile (out ++ [destName i n]) c := by
                unfold transferStep
                simp [hsrc]
              have hcwh : copyWrites fs inp out fails i (n :: ns) =
                  (out ++ [destName i n], c) ::
                    copyWrites fs inp out fails (i + 1) ns := by
                unfold copyWrites
                rw [hcons, List.filterMap_cons]
                simp [hf, hsrc]
              rw [hfs, hcwh, applyWritesLookup_cons]
              rw [FS.lookupFile_setFile]
              congr 1
              by_cases hpd : p = out ++ [destName i n]
              · rw [if_pos hpd, if_pos hpd.symm]
              · rw [if_neg hpd, if_neg (fun h => hpd h.symm)]

/-- C6: in copy mode, running the task a second time on the unmodified
input recomputes the same destination names and overwrites them with the
same contents: after the second run every file lookup and the directory
set agree with the state after the first run. -/
theorem C6_copy_idempotent (fs : FS) (task : FsPath)
    (fails : Nat → Option String) (p : FsPath) :
    (processTask (processTask fs task false false fails).1 task false false
        fails).1.lookupFile p =
      (processTask fs task false false fails).1.lookupFile p ∧
    (processTask (processTask fs task false false fails).1 task false false
        fails).1.dirs =
      (processTask fs task false false fails).1.dirs := by
  by_cases hdir : fs.isDir (task ++ ["image_inputs"]) = true
  · by_cases hemp : gatherImageFiles fs (task ++ ["image_inputs"]) = []
    · have hfst : (processTask fs task false false fails).1 =
          fs.mkdirIfAbsent (task ++ ["trajectory"]) := by
        rw [processTask_empty fs task false fails hdir hemp]
      have hdir2 : (fs.mkdirIfAbsent (task ++ ["trajectory"])).isDir
          (task ++ ["image_inputs"]) = true := by
        rw [FS.isDir_mkdirIfAbsent_other (sibling_ne (by decide))]
        exact hdir
      have hemp2 : gatherImageFiles (fs.mkdirIfAbsent (task ++ ["trajectory"]))
          (task ++ ["image_inputs"]) = [] := by
        rw [gatherImageFiles_mkdirIfAbsent]
        exact hemp
      have hfst2 : (processTask (fs.mkdirIfAbsent (task ++ ["trajectory"]))
          task false false fails).1 =
          (fs.mkdirIfAbsent (task ++ ["trajectory"])).mkdirIfAbsent
            (task ++ ["trajectory"]) := by
        rw [processTask_empty _ task false fails hdir2 hemp2]
      have hcollapse :
          (fs.mkdirIfAbsent (task ++ ["trajectory"])).mkdirIfAbsent
            (task ++ ["trajectory"]) =
          fs.mkdirIfAbsent (task ++ ["trajectory"]) :=
        FS.mkdirIfAbsent_of_isDir (FS.isDir_mkdirIfAbsent_self fs _)
      rw [hfst, hfst2, hcollapse]
      exact ⟨rfl, rfl⟩
    · have hsep : ∀ m d : String, (task ++ ["image_inputs"]) ++ [m] ≠
          (task ++ ["trajectory"]) ++ [d] := fun m d =>
        sibling_child_ne (by decide)
      have hio : (task ++ ["trajectory"]) ≠ (task ++ ["image_inputs"]) :=
        sibling_ne (by decide)
      have hfst : (processTask fs task false false fails).1 =
          (taskRun fs task false fails).1 := by
        rw [processTask_copy_eq fs task fails hdir hemp]
      have hdirs : (taskRun fs task false fails).1.dirs =
          (fs.mkdirIfAbsent (task ++ ["trajectory"])).dirs := by
        unfold taskRun
        exact runSteps_dirs _ _ false false fails _ 0 _
      have hdir2 : (taskRun fs task false fails).1.isDir
          (task ++ ["image_inputs"]) = true := by
        have h0 : (taskRun fs task false fails).1.isDir
            (task ++ ["image_inputs"]) =
            (fs.mkdirIfAbsent (task ++ ["trajectory"])).isDir
              (task ++ ["image_inputs"]) := by
          unfold FS.isDir
          rw [hdirs]
        rw [h0, FS.isDir_mkdirIfAbsent_other (sibling_ne (by decide))]
        exact hdir
      have hfcn : (taskRun fs task false fails).1.fileChildNames
          (task ++ ["image_inputs"]) =
          fs.fileChildNames (task ++ ["image_inputs"]) := by
        unfold taskRun
        rw [runSteps_fileChildNames_copy _ _ false fails hio]
        unfold FS.fileChildNames
        rw [FS.files_mkdirIfAbsent]
      have hg2 : gatherImageFiles (taskRun fs task false fails).1
          (task ++ ["image_inputs"]) =
          gatherImageFiles fs (task ++ ["image_inputs"]) := by
        unfold gatherImageFiles
        rw [hfcn]
      have hemp2 : gatherImageFiles (taskRun fs task false fails).1
          (task ++ ["image_inputs"]) ≠ [] := by
        rw [hg2]
        exact hemp
      have hfst2 : (processTask (taskRun fs task false fails).1 task false
          false fails).1 =
          (taskRun (taskRun fs task false fails).1 task false fails).1 := by
        rw [processTask_copy_eq _ task fails hdir2 hemp2]
      have hout2 : (taskRun fs task false fails).1.isDir
          (task ++ ["trajectory"]) = true := by
        have h0 : (taskRun fs task false fails).1.isDir
            (task ++ ["trajectory"]) =
            (fs.mkdirIfAbsent (task ++ ["trajectory"])).isDir
              (task ++ ["trajectory"]) := by
          unfold FS.isDir
          rw [hdirs]
        rw [h0]
        exact FS.isDir_mkdirIfAbsent_self fs _
      have hR2 : taskRun (taskRun fs task false fails).1 task false fails =
          runSteps (taskRun fs task false fails).1 (task ++ ["image_inputs"])
            (task ++ ["trajectory"]) false false fails 0
            (gatherImageFiles fs (task ++ ["image_inputs"])) := by
        show runSteps ((taskRun fs task false fails).1.mkdirIfAbsent
            (task ++ ["trajectory"])) (task ++ ["image_inputs"])
            (task ++ ["trajectory"]) false false fails 0
            (gatherImageFiles (taskRun fs task false fails).1
              (task ++ ["image_inputs"])) = _
        rw [FS.mkdirIfAbsent_of_isDir hout2, hg2]
      constructor
      · rw [hfst, hfst2, hR2]
        rw [runSteps_copy_lookup (task ++ ["image_inputs"])
          (task ++ ["trajectory"]) fails hsep
          (gatherImageFiles fs (task ++ ["image_inputs"])) 0
          (taskRun fs task false fails).1 p]
        have hreadsR : ∀ m : String,
            (taskRun fs task false fails).1.lookupFile
              ((task ++ ["image_inputs"]) ++ [m]) =
            (fs.mkdirIfAbsent (task ++ ["trajectory"])).lookupFile
              ((task ++ ["image_inputs"]) ++ [m]) := by
          intro m
          unfold taskRun
          exact runSteps_copy_reads _ _ fails hsep _ 0 _ m
        rw [copyWrites_congr (task ++ ["image_inputs"]) (task ++ ["trajectory"])
          fails (gatherImageFiles fs (task ++ ["image_inputs"])) 0 hreadsR]
        have hRl : (taskRun fs task false fails).1.lookupFile p =
            applyWritesLookup
              (copyWrites (fs.mkdirIfAbsent (task ++ ["trajectory"]))
                (task ++ ["image_inputs"]) (task ++ ["trajectory"]) fails 0
                (gatherImageFiles fs (task ++ ["image_inputs"])))
              ((fs.mkdirIfAbsent (task ++ ["trajectory"])).lookupFile p) p := by
          unfold taskRun
          exact runSteps_copy_lookup _ _ fails hsep _ 0 _ p
        rw [hRl]
        exact applyWritesLookup_idem _ _ _
      · rw [hfst, hfst2, hR2]
        exact runSteps_dirs _ _ false false fails _ 0 _
  · rw [Bool.not_eq_true] at hdir
    have hfst : (processTask fs task false false fails).1 = fs := by
      rw [processTask_skip fs task false false fails hdir]
    rw [hfst]
    constructor
    · rw [hfst]
    · rw [hfst]
